import Mathlib

/-!
Verification of the filesystem-routing core of the Fresh web framework as
vendored in this repository (`src/fs.ts`, `src/config.ts`, the `App` class,
and `render_middleware.ts`).

Each program function is embedded shallowly: strings are handled as their
`List Char` character data (JavaScript strings are compared code unit by
code unit, and all strings involved here are ASCII, so `Char` comparison
agrees with JS code-unit comparison), JavaScript numbers that only ever
hold small integers become `Nat`/`Int`, promises that settle with either a
value or a rejection become `Except`, and the mutable loop state of each
algorithm is threaded explicitly.
-/

/-! ## Route path ordering (`sortRoutePaths`, `getRoutePathScore` in fs.ts) -/

/-- Result of one iteration of the comparison loop inside `sortRoutePaths`:
either the loop returns a value, or it continues to the next index with a
(possibly updated) `segmentIdx`. -/
inductive SortStep where
  | ret (v : Int)
  | cont (seg : Nat)
deriving DecidableEq

/-- JavaScript `charA < charB` where each side is the result of
`String.prototype.charAt`: the empty string (out of range index) compares
smaller than any one-character string, and one-character strings compare by
code unit. -/
def jsCharLt : Option Char → Option Char → Bool
  | none, none => false
  | none, some _ => true
  | some _, none => false
  | some x, some y => x < y

/-- `getRoutePathScore(char, s, i)` from fs.ts. `c` is `s.charAt(i)` (as an
`Option Char`; `none` is the out-of-range empty string, which satisfies none
of the character tests and scores 2). The JS test `i + 4 === s.length - 1`
is rendered as `i + 5 = s.length`: both are equivalent integer equations
whenever `s.length ≥ 1`, and both are false for `s.length = 0` since
`i + 4 ≥ 4 > -1`. Out-of-range JS indexing `s[i+1]` yields `undefined`,
which never equals a character, matching `List.get?` returning `none`. -/
def getRoutePathScore (c : Option Char) (s : List Char) (i : Nat) : Nat :=
  if c = some '_' then
    if i + 1 < s.length then
      if s.get? (i + 1) = some 'e' then 6
      else if s.get? (i + 1) = some 'm' then 5
      else 4
    else 4
  else if c = some '[' then
    if i + 1 < s.length ∧ s.get? (i + 1) = some '.' then 0 else 1
  else if i + 5 = s.length ∧ c = some 'i' ∧ s.get? (i + 1) = some 'n' ∧
      s.get? (i + 2) = some 'd' ∧ s.get? (i + 3) = some 'e' ∧
      s.get? (i + 4) = some 'x' then 3
  else 2

/-- One iteration of the `for` loop body of `sortRoutePaths` at index `i`
with the current `segmentIdx`. Mirrors fs.ts lines 427-460: the `/`-closing
checks, then the segment-start score comparison, then the plain character
comparison. (The JS code assigns `segmentIdx = i` before its two `return`
statements inside the slash branch; the assignment is irrelevant there
because the function returns.) -/
def sortStep (a b : List Char) (i seg : Nat) : SortStep :=
  -- `charA` is `a.get? i`, `charB` is `b.get? i`
  if a.get? i = some '/' ∨ b.get? i = some '/' then
    if a.get? i ≠ some '/' then .ret 1
    else if b.get? i ≠ some '/' then .ret (-1)
    else .cont i
  else if i = seg + 1 then
    if getRoutePathScore (a.get? i) a i = getRoutePathScore (b.get? i) b i then
      if a.get? i ≠ b.get? i then .ret (if jsCharLt (a.get? i) (b.get? i) then 0 else 1)
      else .cont seg
    else .ret (if getRoutePathScore (a.get? i) a i > getRoutePathScore (b.get? i) b i then -1 else 1)
  else if a.get? i ≠ b.get? i then .ret (if jsCharLt (a.get? i) (b.get? i) then 0 else 1)
  else .cont seg

/-- The comparison loop of `sortRoutePaths`, with the remaining iteration
count made explicit: the JS loop runs `i` from 0 while `i < maxLen` and
returns 0 when it falls off the end, so running it from index `i` with
`fuel = maxLen - i` remaining iterations is the same computation. -/
def sortLoop (a b : List Char) (i seg fuel : Nat) : Int :=
  match fuel with
  | 0 => 0
  | fuel + 1 =>
    match sortStep a b i seg with
    | .ret v => v
    | .cont seg' => sortLoop a b (i + 1) seg' fuel

/-- `APP_REG = /_app(?!\.[tj]sx?)?$/` from fs.ts. The negative lookahead
group is marked optional, so a backtracking regex engine that fails to
match via the lookahead simply skips it; the regex is therefore equivalent
to `/_app$/`, i.e. "ends with `_app`". -/
def appRegTest (s : String) : Bool := "_app".data.isSuffixOf s.data

/-- `sortRoutePaths(a, b)` from fs.ts: `_app` paths first, then the
character scan with `segmentIdx = 0` over `maxLen = max(a.length, b.length)`
iterations. -/
def sortRoutePaths (a b : String) : Int :=
  if appRegTest a then -1
  else if appRegTest b then 1
  else sortLoop a.data b.data 0 0 (max a.data.length b.data.length)

/-- Insertion into a list sorted by a three-way comparator: `x` is placed
before the first element `y` with `cmp x y ≤ 0`. -/
def insertCmp {α : Type} (cmp : α → α → Int) (x : α) : List α → List α
  | [] => [x]
  | y :: ys => if cmp x y ≤ 0 then x :: y :: ys else y :: insertCmp cmp x ys

/-- Stable insertion sort by a three-way comparator. `Array.prototype.sort`
is a stable comparison sort; for a comparator that is consistent on the
elements being sorted (as it is on every list sorted in this file — all the
relevant comparisons are strict), every stable comparison sort produces this
same output. -/
def sortByCmp {α : Type} (cmp : α → α → Int) : List α → List α
  | [] => []
  | x :: xs => insertCmp cmp x (sortByCmp cmp xs)

/-! ## Route composition (`fsRoutes` in fs.ts)

The composition loop works on the `InternalRoute` records produced by the
route loader. Components and handler functions are opaque values at this
level; they are represented by string labels. Registrations performed on
the `App` (`app.get`/`app.post`/…/`app.all` and `app.use`) are recorded
symbolically: `renderMiddleware(components, handler)` and the closures
produced by `errorMiddleware`/`notFoundMiddleware` are recorded as the data
they close over. -/

/-- `RouteConfig` (types.ts): the per-route configuration consulted by
`fsRoutes`. -/
structure RouteConfig where
  routeOverride : Option String := none
  skipAppWrapper : Bool := false
  skipInheritedLayouts : Bool := false
deriving DecidableEq

/-- The shape of `mod.handlers ?? mod.handler`: absent, a single function,
an array of functions, or an object mapping HTTP methods to functions.
Functions are identified by string labels. -/
inductive RHandlers where
  | null
  | fn (tag : String)
  | arr (tags : List String)
  | byMethod (entries : List (String × String))
deriving DecidableEq

/-- `InternalRoute` (fs.ts): one loaded route module. `base` is
`path.slice(0, path.lastIndexOf("/"))` as computed by the loader;
the scenario lists below supply it accordingly. -/
structure InternalRoute where
  path : String
  base : String
  config : Option RouteConfig := none
  handlers : RHandlers := .null
  component : Option String := none
deriving DecidableEq

/-- `isHandlerByMethod` (handlers.ts, not among the sources): it tests
`handler !== null && typeof handler === "object"`, which is true for the
method-keyed object and also for an array (JS arrays are objects), and
false for a function. -/
def isHandlerByMethod : RHandlers → Bool
  | .byMethod _ => true
  | .arr _ => true
  | _ => false

/-- `Object.keys(handlers)` paired with the corresponding handler values:
the keys of a method-keyed object are its method names; the keys of an
array are its index strings `"0"`, `"1"`, …. -/
def handlerKeys : RHandlers → List (String × String)
  | .byMethod es => es
  | .arr ts => ts.enum.map fun p => (toString p.1, p.2)
  | _ => []

/-- `typeof handlers === "function" ? handlers : undefined` — the handler
extraction used for `_error`/`_500`/`_404` entries and the `app.all`
leaf branch. (The guarding `handlers === null || (isHandlerByMethod && no
keys)` test in the `_error`/`_404` branches also yields `undefined`, which
this function already returns for those shapes.) -/
def singleFnHandler : RHandlers → Option String
  | .fn t => some t
  | _ => none

/-- The middleware functions a `_middleware` stack entry contributes
(fs.ts lines 249-255): a lone function is pushed as-is
(`handlers !== null && !isHandlerByMethod(handlers)`), an array is
spread (`Array.isArray`), and a method-keyed object contributes nothing. -/
def middlewareFnsOf : RHandlers → List String
  | .null => []
  | .fn t => [t]
  | .arr ts => ts
  | .byMethod _ => []

/-- A middleware recorded in a registered handler chain: either a plain
middleware function (by label), the `renderMiddleware(components, handler)`
terminal, or one of the `errorMiddleware`/`notFoundMiddleware` closures
from fs.ts, recorded as the data they close over. -/
inductive MwSpec where
  | tag (t : String)
  | render (components : List String) (handler : Option String)
  | errorMw (components : List String) (handler : Option String)
  | notFoundMw (components : List String) (handler : Option String)
deriving DecidableEq

/-- The observable registration state of an `App`: the routes added via
`app.get`/`app.post`/…/`app.all` (method, pattern, handler chain) and the
global middlewares added via `app.use`. -/
structure AppModel where
  routes : List (String × String × List MwSpec) := []
  globalMws : List MwSpec := []
deriving DecidableEq

def appAddRoute (app : AppModel) (method pattern : String) (chain : List MwSpec) :
    AppModel :=
  { app with routes := app.routes ++ [(method, pattern, chain)] }

/-- JS `p.endsWith(suf)` on ASCII strings. -/
def pathEndsWith (p suf : String) : Bool := suf.data.isSuffixOf p.data

/-- JS `p.startsWith(pre)` on ASCII strings. -/
def pathStartsWith (p pre : String) : Bool := pre.data.isPrefixOf p.data

/-- JS `p.slice(0, -n)` for `n > 0`: drop the last `n` characters,
clamping to the empty string when `n ≥ p.length`. -/
def sliceDropRight (p : String) (n : Nat) : String := ⟨p.data.take (p.data.length - n)⟩

/-- `mod.config?.skipAppWrapper` style accesses: a missing config behaves
as one with every field defaulted (optional chaining yields `undefined`,
which is falsy, and `config?.routeOverride ?? x` falls back to `x`). -/
def configOf (r : InternalRoute) : RouteConfig := r.config.getD {}

/-- Modelled from the spec: `pathToPattern` (router.ts, which is not among
the sources) derives the route pattern from the extension-free route path:
`[name]` segments become named parameters and `[...name]` becomes a
trailing wildcard capture; other segments are kept verbatim, and the result
is `/`-rooted. -/
def transformSeg (s : String) : String :=
  if pathStartsWith s "[..." ∧ pathEndsWith s "]" then
    ":" ++ ⟨(s.data.drop 4).take ((s.data.drop 4).length - 1)⟩ ++ "*"
  else if pathStartsWith s "[" ∧ pathEndsWith s "]" then
    ":" ++ ⟨(s.data.drop 1).take ((s.data.drop 1).length - 1)⟩
  else s

/-- Modelled from the spec: see `transformSeg`. -/
def pathToPattern (p : String) : String :=
  "/" ++ String.intercalate "/" ((p.splitOn "/").map transformSeg)

/-- The mutable accumulation state while a Leaf walks the directory stack
(fs.ts lines 241-323). `app` carries the registrations performed inside
the walk (`app.all` for `_error`/`_500`, `app.use` for `_404`). -/
structure LeafState where
  app : AppModel
  middlewares : List MwSpec
  components : List String
  skipApp : Bool
  hasApp : Bool
deriving DecidableEq

/-- One iteration of the Leaf's bottom-to-top stack walk (fs.ts lines
247-323), for stack entry `m`. `skipLayouts` is the Leaf's own
`skipInheritedLayouts` flag, which is not mutated during the walk.
The `continue` statements of the source become early returns of the
updated state. -/
def leafStep (skipLayouts : Bool) (ls : LeafState) (m : InternalRoute) : LeafState :=
  -- `if (mod.path.endsWith("/_middleware")) { ... }` (no continue)
  let ls :=
    if pathEndsWith m.path "/_middleware" then
      { ls with middlewares := ls.middlewares ++ (middlewareFnsOf m.handlers).map MwSpec.tag }
    else ls
  -- `if (skipApp && mod.path === "/_app") { hasApp = false; continue; }`
  if ls.skipApp ∧ m.path = "/_app" then { ls with hasApp := false }
  else
    -- `else if (!skipApp && mod.config?.skipAppWrapper) { ... }`
    let ls :=
      if ¬ls.skipApp ∧ (configOf m).skipAppWrapper then
        if ls.hasApp then
          { ls with skipApp := true, hasApp := false, components := ls.components.drop 1 }
        else { ls with skipApp := true }
      else ls
    -- `if (skipLayouts && mod.path.endsWith("/_layout")) continue;`
    if skipLayouts ∧ pathEndsWith m.path "/_layout" then ls
    else
      -- `else if (!skipLayouts && mod.config?.skipInheritedLayouts) { ... }`
      let ls :=
        if ¬skipLayouts ∧ (configOf m).skipInheritedLayouts then
          { ls with components :=
              if ¬ls.skipApp ∧ ls.hasApp then
                match ls.components.head? with
                | some f => [f]
                | none => []
              else [] }
        else ls
      if pathEndsWith m.path "/_error" ∨ pathEndsWith m.path "/_500" then
        let handler := singleFnHandler m.handlers
        let errorComponents := ls.components ++ (match m.component with | some c => [c] | none => [])
        -- `let parent = mod.path.slice(0, -"_error".length)` — the same
        -- 6-character slice is applied to `_500` paths as well.
        let parent0 := sliceDropRight m.path 6
        let parent := if parent0 = "/" then "*" else parent0 ++ "*"
        { ls with
            app := appAddRoute ls.app "ALL" parent [MwSpec.errorMw errorComponents handler],
            middlewares := ls.middlewares ++ [MwSpec.errorMw errorComponents handler] }
      else if pathEndsWith m.path "/_404" then
        let handler := singleFnHandler m.handlers
        let nfComponents := ls.components ++ (match m.component with | some c => [c] | none => [])
        { ls with app := { ls.app with globalMws := ls.app.globalMws ++ [MwSpec.notFoundMw nfComponents handler] } }
      else
        match m.component with
        | some c => { ls with components := ls.components ++ [c] }
        | none => ls

/-- The loop state of `fsRoutes` across route modules: the accumulated
`App` registrations, the directory stack (most recently pushed entry
first), and the `hasApp` flag, which is declared outside the loop and is
mutated both when `_app` is pushed and from inside a Leaf's stack walk. -/
structure FsState where
  app : AppModel
  stack : List InternalRoute
  hasApp : Bool
deriving DecidableEq

/-- The stack-popping loop at fs.ts lines 210-217: entries are popped from
the top while their `base` is nonempty and is not a `/`-terminated prefix
of the current route's path. -/
def popStack (p : String) : List InternalRoute → List InternalRoute
  | [] => []
  | top :: rest =>
    if top.base ≠ "" ∧ ¬pathStartsWith p (top.base ++ "/") then popStack p rest
    else top :: rest

/-- The body of the main `fsRoutes` loop (fs.ts lines 206-357) for one
route module `r`. -/
def processRoute (st : FsState) (r : InternalRoute) : FsState :=
  let stack := popStack r.path st.stack
  if pathEndsWith r.path "/_app" then
    { st with hasApp := true, stack := r :: stack }
  else if pathEndsWith r.path "/_middleware" ∨ pathEndsWith r.path "/_layout" ∨
      pathEndsWith r.path "/_error" ∨ pathEndsWith r.path "/_404" ∨
      pathEndsWith r.path "/_500" then
    { st with stack := r :: stack }
  else
    let skipLayouts := (configOf r).skipInheritedLayouts
    let init : LeafState := ⟨st.app, [], [], (configOf r).skipAppWrapper, st.hasApp⟩
    let ls := stack.reverse.foldl (leafStep skipLayouts) init
    let components := ls.components ++ (match r.component with | some c => [c] | none => [])
    let routePath := (configOf r).routeOverride.getD (pathToPattern ⟨r.path.data.drop 1⟩)
    let app :=
      if r.handlers = .null ∨ (isHandlerByMethod r.handlers ∧ (handlerKeys r.handlers).isEmpty) then
        appAddRoute ls.app "GET" routePath (ls.middlewares ++ [MwSpec.render components none])
      else if isHandlerByMethod r.handlers then
        (handlerKeys r.handlers).foldl
          (fun a mf => appAddRoute a mf.1 routePath (ls.middlewares ++ [MwSpec.render components (some mf.2)]))
          ls.app
      else
        match singleFnHandler r.handlers with
        | some t => appAddRoute ls.app "ALL" routePath (ls.middlewares ++ [MwSpec.render components (some t)])
        | none => ls.app
    { app := app, stack := stack, hasApp := ls.hasApp }

/-- `fsRoutes` after module loading (fs.ts lines 201-357): sort the route
modules with `sortRoutePaths` on their paths, then run the composition
loop with an empty stack and `hasApp = false`. -/
def fsRoutesModel (routeModules : List InternalRoute) : AppModel :=
  let sorted := sortByCmp (fun a b => sortRoutePaths a.path b.path) routeModules
  (sorted.foldl processRoute ⟨{}, [], false⟩).app

/-! ## Request-time error values and responses -/

/-- A JavaScript value thrown during request handling: either an
`HttpError` (error.ts, not among the sources: it carries an HTTP `status`
and an error `message`) or any other thrown value, identified by a tag. -/
inductive JSVal where
  | httpError (status : Nat) (message : String)
  | other (tag : String)
deriving DecidableEq

/-- The observable parts of a `Response` as produced by the dispatch
pipeline's error translation: status and body. -/
structure JSResponse where
  status : Nat
  body : String
deriving DecidableEq

/-- The settled outcome of an async handler invocation: a response, or a
rejection carrying the thrown value. -/
abbrev AsyncResult := Except JSVal JSResponse

/-- The `catch` block of the request handler in `App.handler`:
`err instanceof HttpError` yields `new Response(err.message, { status:
err.status })`, anything else yields a 500 `"Internal server error"`
response. -/
def errorToResponse : JSVal → JSResponse
  | .httpError s m => ⟨s, m⟩
  | .other _ => ⟨500, "Internal server error"⟩

/-- A middleware as executed by the dispatch pipeline. All the middlewares
reaching the router are `async` functions: invoking one never throws
synchronously, it returns a promise. The middleware receives (through
`ctx.next`) the settled result of the remainder of the chain and settles
with its own result. -/
abbrev MwFn := AsyncResult → AsyncResult

/-- Modelled from the spec: `runMiddlewares` (middlewares/mod.ts, not among
the sources) executes the flattened handler groups as a strict
left-to-right continuation sequence — each handler receives the settled
result of the remainder of the chain, and a chain that runs to the end
falls through to the bound default terminal handler. -/
def runMiddlewares (groups : List (List MwFn)) (terminal : AsyncResult) : AsyncResult :=
  groups.flatten.foldr (fun mw next => mw next) terminal

/-- The per-request function returned by `App.handler` (lines 179-217 of
the `App` class source), after routing selected `handlers` and the default
terminal `next` (404 thrower, or 405 thrower when a pattern matched with
the wrong method). The fast path `if (handlers.length === 1 &&
handlers[0].length === 1) return handlers[0][0](ctx);` returns the
middleware's promise from inside `try` **without awaiting it**, so a
rejection of that promise is not intercepted by the surrounding
`try`/`catch` (JavaScript `return p` inside `try` does not route `p`'s
rejection through `catch`; only `return await p` would). The general path
`return await runMiddlewares(handlers, ctx)` does await, so its rejections
reach the `catch` block and are translated by `errorToResponse`. -/
def appHandler (handlers : List (List MwFn)) (terminal : AsyncResult) : AsyncResult :=
  if handlers.length = 1 ∧ (handlers.headD []).length = 1 then
    ((handlers.headD []).headD id) terminal
  else
    match runMiddlewares handlers terminal with
    | .ok res => .ok res
    | .error e => .ok (errorToResponse e)

/-! ## `errorMiddleware` and `notFoundMiddleware` (fs.ts lines 360-390) -/

/-- The request-context fields relevant to the error boundaries: the
`error` slot (`null` until an error boundary assigns it). -/
structure ErrCtx where
  error : Option JSVal := none
deriving DecidableEq

/-- The middleware returned by `errorMiddleware(components, handler)`
(fs.ts lines 360-373). `mid` stands for the closed-over
`renderMiddleware(components, handler)`; `next` is the settled result of
`await ctx.next()`. On rejection the thrown value is assigned to
`ctx.error` and `mid` is invoked on the updated context; the pair returned
here is (settled result, context after the call) so that the `ctx.error`
assignment is observable. -/
def errorMiddleware (mid : ErrCtx → AsyncResult) (next : AsyncResult) (ctx : ErrCtx) :
    AsyncResult × ErrCtx :=
  match next with
  | .ok res => (.ok res, ctx)
  | .error e => (mid { ctx with error := some e }, { ctx with error := some e })

/-- `err instanceof HttpError && err.status === 404` (fs.ts line 384). -/
def isNotFoundError : JSVal → Bool
  | .httpError s _ => s = 404
  | .other _ => false

/-- The middleware returned by `notFoundMiddleware(components, handler)`
(fs.ts lines 375-390): a thrown value is caught and rendered only when it
is an `HttpError` with status 404; everything else is re-thrown unchanged
(and `ctx.error` is not assigned). -/
def notFoundMiddleware (mid : ErrCtx → AsyncResult) (next : AsyncResult) (ctx : ErrCtx) :
    AsyncResult :=
  match next with
  | .ok res => .ok res
  | .error e => if isNotFoundError e then mid ctx else .error e

/-! ## `ctx.redirect` (`FreshReqContext.redirect` in config.ts) -/

/-- `replaceAll(/\/+/g, "/")`: every maximal run of slashes is replaced by
a single slash. The boolean records whether the previous character was a
slash (i.e. whether we are inside a run that has already emitted its
slash). -/
def collapseSlashes : Bool → List Char → List Char
  | _, [] => []
  | prevSlash, c :: rest =>
    if c = '/' then
      if prevSlash then collapseSlashes true rest
      else '/' :: collapseSlashes true rest
    else c :: collapseSlashes false rest

/-- JS `String.prototype.indexOf` for a single character: index of the
first occurrence, if any. -/
def indexOfChar : List Char → Char → Option Nat
  | [], _ => none
  | c :: rest, t => if c = t then some 0 else (indexOfChar rest t).map (· + 1)

/-- The body of the protocol-relative normalization in
`FreshReqContext.redirect` (config.ts lines 170-181), applied to the
character data of the target: split at the first `?` (or, when there is no
`?`, the first `#`), collapse slash runs in the part before the split, and
append the rest verbatim. -/
def redirectLocData (cs : List Char) : List Char :=
  let idx := match indexOfChar cs '?' with
             | some k => some k
             | none => indexOfChar cs '#'
  match idx with
  | some k => collapseSlashes false (cs.take k) ++ cs.drop k
  | none => collapseSlashes false cs

/-- The `Location` header value computed by `FreshReqContext.redirect`:
the normalization applies only when `pathOrUrl !== "/" &&
pathOrUrl.startsWith("/")`; every other target is used verbatim. -/
def redirectLocation (pathOrUrl : String) : String :=
  if pathOrUrl ≠ "/" ∧ pathOrUrl.data.head? = some '/' then
    ⟨redirectLocData pathOrUrl.data⟩
  else pathOrUrl

/-- The observable parts of the `Response` built by `redirect`. -/
structure RedirectResponse where
  status : Nat
  location : String
deriving DecidableEq

/-- `FreshReqContext.redirect(pathOrUrl, status = 302)`: a response with
the (possibly normalized) `Location` header and the given status, 302 when
the argument is omitted. -/
def redirectResponse (pathOrUrl : String) (status : Option Nat) : RedirectResponse :=
  ⟨status.getD 302, redirectLocation pathOrUrl⟩

/-- A string that begins with two or more slashes — a protocol-relative
URL path. -/
def twoLeadingSlashes (s : String) : Bool :=
  match s.data with
  | '/' :: '/' :: _ => true
  | _ => false

/-! ## Island registration (`App.island`) -/

/-- One entry of the island registry (`Island` in context.ts): the computed
unique name, the export name, and the source file. -/
structure IslandEntry where
  name : String
  exportName : String
  file : String
deriving DecidableEq

/-- The island-related state of an `App`: the `#islandNames` set (kept as
a list) and the `#islandRegistry` map keyed by component function identity
(component functions are identified by string keys). -/
structure IslandState where
  islandNames : List String := []
  registry : List (String × IslandEntry) := []
deriving DecidableEq

/-- `Map.prototype.set`: replace the value at an existing key in place, or
append a new binding. -/
def mapSet (reg : List (String × IslandEntry)) (k : String) (v : IslandEntry) :
    List (String × IslandEntry) :=
  match reg with
  | [] => [(k, v)]
  | (k', v') :: rest => if k' = k then (k, v) :: rest else (k', v') :: mapSet rest k v

/-- The basename of a path: everything after the last `/`. -/
def basenameChars (p : List Char) : List Char :=
  (p.reverse.takeWhile (· ≠ '/')).reverse

/-- `path.basename(filePath, path.extname(filePath))`: the basename with
its extension (the part from the last `.`) removed; a leading-dot-only
basename (dotfile) has no extension. -/
def basenameNoExt (p : String) : String :=
  let b := basenameChars p.data
  match b.reverse.findIdx? (· = '.') with
  | none => ⟨b⟩
  | some k => if b.length - 1 - k = 0 then ⟨b⟩ else ⟨b.take (b.length - (k + 1))⟩

/-- The suffix-probing loop of `App.island`: `let i = 0; while
(names.has(name_i)) i++;`. The fuel argument only bounds the recursion; it
is always sufficient because at most `names.length` candidates can be
occupied. -/
def suffixLoop (names : List String) (name : String) : Nat → Nat → String
  | 0, i => name ++ "_" ++ toString i
  | fuel + 1, i =>
    let cand := name ++ "_" ++ toString i
    if names.contains cand then suffixLoop names name fuel (i + 1) else cand

/-- `App.island(filePathOrUrl, exportName, fn)` (the `App` class source,
lines 72-96): compute the island name (basename without extension for the
default export, else the export name), probe `#islandNames` for a free
suffixed name on collision, and store the entry in `#islandRegistry` keyed
by the function. Note that the method never inserts the chosen name into
`#islandNames`. -/
def appIsland (st : IslandState) (file exportName fnKey : String) : IslandState :=
  let name0 := if exportName = "default" then basenameNoExt file else exportName
  let name :=
    if st.islandNames.contains name0 then
      suffixLoop st.islandNames name0 (st.islandNames.length + 1) 0
    else name0
  { st with registry := mapSet st.registry fnKey ⟨name, exportName, file⟩ }

/-! ## Concrete scenarios used by the claims -/

/-- The route paths of the C4 scenario, in the order the files are listed:
`_app`, `_middleware`, `about.tsx`, `[id].tsx`, `[...slug].tsx`,
`index.tsx` in one directory, with extensions stripped and `/`-rooted as
the loader does. -/
def c4Input : List String :=
  ["/_app", "/_middleware", "/about", "/[id]", "/[...slug]", "/index"]

/-- The order claimed for the C4 scenario. -/
def c4Expected : List String :=
  ["/_app", "/_middleware", "/index", "/about", "/[id]", "/[...slug]"]

/-- C2 scenario: a Leaf two directory levels deep declaring
`skipInheritedLayouts: true`, where only the immediate parent directory
(`/a/b`) has a `_layout`. -/
def c2Routes : List InternalRoute :=
  [ { path := "/a/b/_layout", base := "/a/b", component := some "L" },
    { path := "/a/b/page", base := "/a/b",
      config := some { skipInheritedLayouts := true }, component := some "Page" } ]

/-- C5 scenario: a root `_app`, and a directory `/foo` with `_middleware`,
`_layout` and a Leaf declaring `skipAppWrapper: true`. -/
def c5Routes : List InternalRoute :=
  [ { path := "/_app", base := "", component := some "A" },
    { path := "/foo/_middleware", base := "/foo", handlers := .fn "m" },
    { path := "/foo/_layout", base := "/foo", component := some "L" },
    { path := "/foo/index", base := "/foo",
      config := some { skipAppWrapper := true }, component := some "Page" } ]

/-- C9 scenario: two `App.island` registrations whose computed names
collide (both are default exports of files with basename `Foo`). -/
def c9Scenario : IslandState :=
  appIsland (appIsland {} "Foo.tsx" "default" "f1") "sub/Foo.tsx" "default" "f2"

example : sortRoutePaths "/index" "/about" = -1 := by decide
example : sortRoutePaths "/about" "/index" = 1 := by decide
example : sortRoutePaths "/about" "/[id]" = -1 := by decide
example : sortRoutePaths "/[id]" "/[...slug]" = -1 := by decide
example : sortRoutePaths "/_middleware" "/index" = -1 := by decide
example : sortRoutePaths "/_app" "/_middleware" = -1 := by decide
example : sortRoutePaths "/a" "/b" = 0 := by decide
example : sortRoutePaths "/b" "/a" = 1 := by decide
example : sortByCmp sortRoutePaths ["/_app", "/_middleware", "/about", "/[id]", "/[...slug]", "/index"]
    = ["/_app", "/_middleware", "/index", "/about", "/[id]", "/[...slug]"] := by decide

/-! ## Lemmas about the comparison loop -/

theorem get?_none_of_len_le : ∀ (l : List Char) (i : Nat), l.length ≤ i → l.get? i = none := by
  intro l
  induction l with
  | nil => intro i _; cases i <;> rfl
  | cons x xs ih =>
    intro i h
    cases i with
    | zero => simp at h
    | succ n => simpa using ih n (by simpa using h)

theorem getRoutePathScore_none (s : List Char) (i : Nat) : getRoutePathScore none s i = 2 := by
  simp [getRoutePathScore]

theorem sortStep_none_none {a b : List Char} {i seg : Nat}
    (h1 : a.get? i = none) (h2 : b.get? i = none) : sortStep a b i seg = .cont seg := by
  unfold sortStep
  rw [h1, h2]
  simp [getRoutePathScore_none]

theorem sortStep_ret_values {a b : List Char} {i seg : Nat} {v : Int}
    (h : sortStep a b i seg = .ret v) : v = -1 ∨ v = 0 ∨ v = 1 := by
  unfold sortStep at h
  split_ifs at h <;> (try cases h) <;> omega

theorem sortStep_ret_neg_one_iff (a b : List Char) (i seg : Nat) :
    sortStep a b i seg = .ret (-1) ↔
      (a.get? i = some '/' ∧ ¬b.get? i = some '/') ∨
      (¬a.get? i = some '/' ∧ ¬b.get? i = some '/' ∧ i = seg + 1 ∧
        getRoutePathScore (b.get? i) b i < getRoutePathScore (a.get? i) a i) := by
  unfold sortStep
  split_ifs with h1 h2 h3 h4 h5 h6 h7 h8 <;>
    constructor <;> intro hx <;>
    first
      | tauto
      | (cases hx <;> tauto)
      | (cases hx <;> omega)
      | (exfalso
         rcases hx with ⟨hA, hB⟩ | ⟨hA, hB, hseg, hsc⟩
         · exact h1 (Or.inl hA)
         · omega)

theorem sortStep_cont_iff (a b : List Char) (i seg s : Nat) :
    sortStep a b i seg = .cont s ↔
      (a.get? i = some '/' ∧ b.get? i = some '/' ∧ s = i) ∨
      (¬a.get? i = some '/' ∧ ¬b.get? i = some '/' ∧ a.get? i = b.get? i ∧
        (i = seg + 1 → getRoutePathScore (a.get? i) a i = getRoutePathScore (b.get? i) b i) ∧
        s = seg) := by
  unfold sortStep
  split_ifs <;> constructor <;> intro hx <;>
    first
      | tauto
      | (cases hx; tauto)

theorem sortStep_trans_ret_ret {a b c : List Char} {i seg : Nat}
    (h1 : sortStep a b i seg = .ret (-1)) (h2 : sortStep b c i seg = .ret (-1)) :
    sortStep a c i seg = .ret (-1) := by
  rw [sortStep_ret_neg_one_iff] at h1 h2 ⊢
  rcases h1 with ⟨hA, hB⟩ | ⟨hA, hB, hseg, hsc⟩ <;>
    rcases h2 with ⟨hB', hC⟩ | ⟨hB', hC, hseg', hsc'⟩
  · exact absurd hB' hB
  · exact Or.inl ⟨hA, hC⟩
  · exact absurd hB' hB
  · exact Or.inr ⟨hA, hC, hseg, lt_trans hsc' hsc⟩

theorem sortStep_trans_ret_cont {a b c : List Char} {i seg s : Nat}
    (h1 : sortStep a b i seg = .ret (-1)) (h2 : sortStep b c i seg = .cont s) :
    sortStep a c i seg = .ret (-1) := by
  rw [sortStep_ret_neg_one_iff] at h1 ⊢
  rw [sortStep_cont_iff] at h2
  rcases h1 with ⟨hA, hB⟩ | ⟨hA, hB, hseg, hsc⟩ <;>
    rcases h2 with ⟨hB', hC, hs⟩ | ⟨hB', hC, heq, himp, hs⟩
  · exact absurd hB' hB
  · exact Or.inl ⟨hA, hC⟩
  · exact absurd hB' hB
  · refine Or.inr ⟨hA, hC, hseg, ?_⟩
    have hbc := himp hseg
    omega

theorem sortStep_trans_cont_ret {a b c : List Char} {i seg s : Nat}
    (h1 : sortStep a b i seg = .cont s) (h2 : sortStep b c i seg = .ret (-1)) :
    sortStep a c i seg = .ret (-1) := by
  rw [sortStep_cont_iff] at h1
  rw [sortStep_ret_neg_one_iff] at h2 ⊢
  rcases h1 with ⟨hA, hB, hs⟩ | ⟨hA, hB, heq, himp, hs⟩ <;>
    rcases h2 with ⟨hB', hC⟩ | ⟨hB', hC, hseg', hsc'⟩
  · exact Or.inl ⟨hA, hC⟩
  · exact absurd hB hB'
  · exact absurd hB' hB
  · refine Or.inr ⟨hA, hC, hseg', ?_⟩
    have hab := himp hseg'
    omega

theorem sortStep_trans_cont_cont {a b c : List Char} {i seg s t : Nat}
    (h1 : sortStep a b i seg = .cont s) (h2 : sortStep b c i seg = .cont t) :
    t = s ∧ sortStep a c i seg = .cont s := by
  rw [sortStep_cont_iff] at h1 h2
  rw [sortStep_cont_iff]
  rcases h1 with ⟨hA, hB, hs⟩ | ⟨hA, hB, heq, himp, hs⟩ <;>
    rcases h2 with ⟨hB', hC, ht⟩ | ⟨hB', hC, heq', himp', ht⟩
  · exact ⟨ht.trans hs.symm, Or.inl ⟨hA, hC, hs⟩⟩
  · exact absurd hB hB'
  · exact absurd hB' hB
  · refine ⟨ht.trans hs.symm, Or.inr ⟨hA, hC, heq.trans heq', ?_, hs⟩⟩
    intro hi
    have e1 := himp hi
    have e2 := himp' hi
    omega

theorem sortLoop_succ_ret {a b : List Char} {i seg : Nat} {v : Int} (F : Nat)
    (h : sortStep a b i seg = .ret v) : sortLoop a b i seg (F + 1) = v := by
  unfold sortLoop
  rw [h]

theorem sortLoop_succ_cont {a b : List Char} {i seg s : Nat} (F : Nat)
    (h : sortStep a b i seg = .cont s) :
    sortLoop a b i seg (F + 1) = sortLoop a b (i + 1) s F := by
  conv_lhs => unfold sortLoop
  rw [h]

theorem sortLoop_trans : ∀ (F : Nat) (a b c : List Char) (i seg : Nat),
    sortLoop a b i seg F = -1 → sortLoop b c i seg F = -1 → sortLoop a c i seg F = -1 := by
  intro F
  induction F with
  | zero => intro a b c i seg h1 _; simp [sortLoop] at h1
  | succ F ih =>
    intro a b c i seg h1 h2
    rcases hab : sortStep a b i seg with v1 | s1 <;>
      rcases hbc : sortStep b c i seg with v2 | s2
    · rw [sortLoop_succ_ret F hab] at h1
      rw [sortLoop_succ_ret F hbc] at h2
      subst h1; subst h2
      exact sortLoop_succ_ret F (sortStep_trans_ret_ret hab hbc)
    · rw [sortLoop_succ_ret F hab] at h1
      subst h1
      exact sortLoop_succ_ret F (sortStep_trans_ret_cont hab hbc)
    · rw [sortLoop_succ_ret F hbc] at h2
      subst h2
      exact sortLoop_succ_ret F (sortStep_trans_cont_ret hab hbc)
    · obtain ⟨rfl, hac⟩ := sortStep_trans_cont_cont hab hbc
      rw [sortLoop_succ_cont F hab] at h1
      rw [sortLoop_succ_cont F hbc] at h2
      rw [sortLoop_succ_cont F hac]
      exact ih a b c (i + 1) _ h1 h2

theorem sortLoop_exhausted {a b : List Char} : ∀ (F i seg : Nat),
    a.length ≤ i → b.length ≤ i → sortLoop a b i seg F = 0 := by
  intro F
  induction F with
  | zero => intro i seg _ _; rfl
  | succ F ih =>
    intro i seg hA hB
    rw [sortLoop_succ_cont F (sortStep_none_none (get?_none_of_len_le a i hA) (get?_none_of_len_le b i hB))]
    exact ih (i + 1) seg (hA.trans (Nat.le_succ i)) (hB.trans (Nat.le_succ i))

theorem sortLoop_fuel_succ {a b : List Char} : ∀ (F i seg : Nat),
    max a.length b.length ≤ i + F →
    sortLoop a b i seg (F + 1) = sortLoop a b i seg F := by
  intro F
  induction F with
  | zero =>
    intro i seg h
    have hA : a.length ≤ i := by omega
    have hB : b.length ≤ i := by omega
    rw [sortLoop_exhausted 1 i seg hA hB, sortLoop_exhausted 0 i seg hA hB]
  | succ F ih =>
    intro i seg h
    rcases hs : sortStep a b i seg with v | s
    · rw [sortLoop_succ_ret (F + 1) hs, sortLoop_succ_ret F hs]
    · rw [sortLoop_succ_cont (F + 1) hs, sortLoop_succ_cont F hs]
      exact ih (i + 1) s (by omega)

theorem sortLoop_fuel_add {a b : List Char} : ∀ (d F i seg : Nat),
    max a.length b.length ≤ i + F →
    sortLoop a b i seg (F + d) = sortLoop a b i seg F := by
  intro d
  induction d with
  | zero => intro F i seg _; rfl
  | succ d ih =>
    intro F i seg h
    have e : F + (d + 1) = (F + d) + 1 := by omega
    rw [e, sortLoop_fuel_succ (F + d) i seg (by omega), ih F i seg h]

theorem sortLoop_fuel_congr {a b : List Char} (F G i seg : Nat)
    (hF : max a.length b.length ≤ i + F) (hG : max a.length b.length ≤ i + G) :
    sortLoop a b i seg F = sortLoop a b i seg G := by
  rcases Nat.le_total F G with h | h
  · obtain ⟨d, rfl⟩ := Nat.le.dest h
    rw [sortLoop_fuel_add d F i seg hF]
  · obtain ⟨d, rfl⟩ := Nat.le.dest h
    rw [sortLoop_fuel_add d G i seg hG]

theorem sortLoop_neg {a b : List Char} : ∀ (F i seg : Nat),
    sortLoop a b i seg F < 0 → sortLoop a b i seg F = -1 := by
  intro F
  induction F with
  | zero => intro i seg h; simp [sortLoop] at h
  | succ F ih =>
    intro i seg h
    rcases hs : sortStep a b i seg with v | s
    · rw [sortLoop_succ_ret F hs] at h ⊢
      rcases sortStep_ret_values hs with rfl | rfl | rfl <;> omega
    · rw [sortLoop_succ_cont F hs] at h ⊢
      exact ih (i + 1) s h

/-- C1: the strict part of the route-path comparator is transitive — for
every three route path strings `a`, `b`, `c`, if `sortRoutePaths a b < 0`
and `sortRoutePaths b c < 0` then `sortRoutePaths a c < 0` (the property
the spec states as "Route Path Ordering is a total order: for all paths
`a`, `b`, `c`, if `order(a,b)<0` and `order(b,c)<0` then `order(a,c)<0`").
The theorem holds for all strings, with no restriction to well-formed
route paths. -/
theorem sortRoutePaths_trans (a b c : String)
    (h1 : sortRoutePaths a b < 0) (h2 : sortRoutePaths b c < 0) :
    sortRoutePaths a c < 0 := by
  unfold sortRoutePaths at h1 h2 ⊢
  by_cases ha : appRegTest a
  · rw [if_pos ha]
    decide
  · rw [if_neg ha] at h1 ⊢
    by_cases hb : appRegTest b
    · rw [if_pos hb] at h1
      omega
    · rw [if_neg hb] at h1 h2
      by_cases hc : appRegTest c
      · rw [if_pos hc] at h2
        omega
      · rw [if_neg hc] at h2 ⊢
        set N := max a.data.length (max b.data.length c.data.length) with hN
        have e1 : sortLoop a.data b.data 0 0 (max a.data.length b.data.length)
            = sortLoop a.data b.data 0 0 N :=
          sortLoop_fuel_congr _ _ 0 0 (by omega) (by omega)
        have e2 : sortLoop b.data c.data 0 0 (max b.data.length c.data.length)
            = sortLoop b.data c.data 0 0 N :=
          sortLoop_fuel_congr _ _ 0 0 (by omega) (by omega)
        have e3 : sortLoop a.data c.data 0 0 (max a.data.length c.data.length)
            = sortLoop a.data c.data 0 0 N :=
          sortLoop_fuel_congr _ _ 0 0 (by omega) (by omega)
        rw [e1] at h1
        rw [e2] at h2
        rw [e3]
        have r := sortLoop_trans N a.data b.data c.data 0 0
          (sortLoop_neg N 0 0 h1) (sortLoop_neg N 0 0 h2)
        omega

/-- Witness for C1 at concrete route paths: `/index` sorts strictly before
`/about`, which sorts strictly before `/[id]`, and the theorem yields that
`/index` sorts strictly before `/[id]`. -/
theorem sortRoutePaths_trans_witness :
    sortRoutePaths "/index" "/about" < 0 ∧ sortRoutePaths "/about" "/[id]" < 0 ∧
      sortRoutePaths "/index" "/[id]" < 0 :=
  ⟨by decide, by decide, sortRoutePaths_trans "/index" "/about" "/[id]" (by decide) (by decide)⟩

/-- C4: sorting the route paths derived from `_app`, `_middleware`,
`about.tsx`, `[id].tsx`, `[...slug].tsx`, `index.tsx` (one directory) with
`sortRoutePaths` yields exactly `_app`, `_middleware`, `index`, `about`,
`[id]`, `[...slug]`. The second conjunct shows the expected list is
strictly pairwise ordered under the comparator (each earlier path compares
`< 0` against each later one and the reverse comparison is `> 0`), so
every comparison sort — in particular `Array.prototype.sort` — produces
this order regardless of algorithm. -/
theorem sortRoutePaths_c4_order :
    sortByCmp sortRoutePaths c4Input = c4Expected ∧
      List.Pairwise (fun x y => sortRoutePaths x y < 0 ∧ 0 < sortRoutePaths y x) c4Expected := by
  constructor
  · decide
  · decide

/-- C2 counterexample: in the two-level scenario (`/a/b/_layout` with
component `L`; Leaf `/a/b/page` with `skipInheritedLayouts: true` and
component `Page`), the registered GET chain renders `["Page"]` — not
`["L", "Page"]` as the claim states: the immediately enclosing layout is
excluded too. -/
theorem fsRoutes_c2_counterexample :
    (fsRoutesModel c2Routes).routes.map (fun r => (r.1, r.2.2))
      = [("GET", [MwSpec.render ["Page"] none])] ∧
    (fsRoutesModel c2Routes).routes.map (fun r => (r.1, r.2.2))
      ≠ [("GET", [MwSpec.render ["L", "Page"] none])] := by
  constructor
  · rfl
  · decide

/-- C2 (amended): for a Leaf declaring `skipInheritedLayouts: true` two
directory levels deep, when only its immediate parent directory contains a
`_layout`, the composed component chain is exactly `[Leaf component]`:
every inherited layout is excluded, including the immediately enclosing
one (the Leaf's `skipLayouts` flag makes the walk `continue` past every
`_layout` stack entry), and no global middleware is registered. -/
theorem fsRoutes_c2_amended :
    (fsRoutesModel c2Routes).routes.map (fun r => (r.1, r.2.2))
      = [("GET", [MwSpec.render ["Page"] none])] ∧
    (fsRoutesModel c2Routes).globalMws = [] := by
  constructor
  · rfl
  · rfl

/-- C5: in the scenario with a root `_app` (component `A`), and `/foo`
containing `_middleware` (handler `m`), `_layout` (component `L`) and a
Leaf `index` with `skipAppWrapper: true` (component `Page`), the single
registered route is a GET whose chain is the `_middleware` handler
followed by a render of exactly `[L, Page]` — the App component `A` is
excluded, the layout is kept, and the middleware chain is kept. -/
theorem fsRoutes_c5_skipAppWrapper :
    (fsRoutesModel c5Routes).routes.map (fun r => (r.1, r.2.2))
      = [("GET", [MwSpec.tag "m", MwSpec.render ["L", "Page"] none])] ∧
    "A" ∉ ["L", "Page"] := by
  constructor
  · rfl
  · decide

/-- C6: the error-boundary middleware built by `errorMiddleware` catches
every value thrown by its downstream chain — whatever its type — sets
`ctx.error` to exactly that value, and returns the result of re-rendering
(the closed-over `renderMiddleware(components, handler)`, here `mid`) on
the updated context instead of propagating the error; a successful
downstream response is passed through with the context untouched. -/
theorem errorMiddleware_catches_all :
    ∀ (mid : ErrCtx → AsyncResult) (ctx : ErrCtx),
      (∀ e : JSVal, errorMiddleware mid (.error e) ctx
        = (mid { ctx with error := some e }, { ctx with error := some e })) ∧
      (∀ r : JSResponse, errorMiddleware mid (.ok r) ctx = (.ok r, ctx)) :=
  fun _ _ => ⟨fun _ => rfl, fun _ => rfl⟩

/-- C7: the not-found middleware built by `notFoundMiddleware` catches a
thrown value if and only if it is an `HttpError` with status 404 (in which
case it renders its own chain `mid`); every other thrown value is
re-thrown unchanged, and a successful downstream response passes through. -/
theorem notFoundMiddleware_404_only :
    ∀ (mid : ErrCtx → AsyncResult) (ctx : ErrCtx) (e : JSVal),
      ((∃ m, e = JSVal.httpError 404 m) →
        notFoundMiddleware mid (.error e) ctx = mid ctx) ∧
      ((∀ m, e ≠ JSVal.httpError 404 m) →
        notFoundMiddleware mid (.error e) ctx = .error e) ∧
      (∀ r : JSResponse, notFoundMiddleware mid (.ok r) ctx = .ok r) := by
  intro mid ctx e
  refine ⟨?_, ?_, fun _ => rfl⟩
  · rintro ⟨m, rfl⟩
    rfl
  · intro hne
    have he : isNotFoundError e = false := by
      cases e with
      | httpError s m =>
        have : s ≠ 404 := fun hs => hne m (by rw [hs])
        simp [isNotFoundError, this]
      | other t => rfl
    simp [notFoundMiddleware, he]

/-- Witness for C7: a thrown `HttpError(404)` is caught and re-rendered
(the custom chain's result is returned), and a thrown `HttpError(500)` is
re-thrown unchanged. -/
theorem notFoundMiddleware_404_only_witness :
    notFoundMiddleware (fun _ => .ok ⟨404, "custom"⟩)
        (.error (JSVal.httpError 404 "nf")) ⟨none⟩ = .ok ⟨404, "custom"⟩ ∧
    notFoundMiddleware (fun _ => .ok ⟨404, "custom"⟩)
        (.error (JSVal.httpError 500 "boom")) ⟨none⟩ = .error (JSVal.httpError 500 "boom") := by
  constructor
  · exact (notFoundMiddleware_404_only (fun _ => .ok ⟨404, "custom"⟩) ⟨none⟩
      (JSVal.httpError 404 "nf")).1 ⟨"nf", rfl⟩
  · exact ((notFoundMiddleware_404_only (fun _ => .ok ⟨404, "custom"⟩) ⟨none⟩
      (JSVal.httpError 500 "boom")).2.1 (by intro m h; cases h))

/-- C9: evaluating `App.island` at the failing input — two registrations
whose computed names collide (`island("Foo.tsx", "default", f1)` then
`island("sub/Foo.tsx", "default", f2)`) — stores **both** islands under
the name `"Foo"`, and `#islandNames` is still empty afterwards: the
method checks the set but never inserts the chosen name into it, so the
collision branch can never fire and names are not deduplicated, contrary
to the claim (which expects the second island to be stored as `"Foo_0"`). -/
theorem appIsland_no_dedup :
    c9Scenario.registry.map (fun e => e.2.name) = ["Foo", "Foo"] ∧
      c9Scenario.islandNames = [] := by
  constructor
  · rfl
  · rfl

/-- C3 counterexample: a single-middleware chain (the fast path) whose
middleware rejects: `App.handler` returns the rejected promise itself —
the thrown value escapes the dispatch pipeline untranslated instead of
becoming a 500 response. -/
theorem appHandler_fast_path_escape :
    appHandler [[fun _ => .error (JSVal.other "boom")]]
        (.error (JSVal.httpError 404 "Not Found"))
      = .error (JSVal.other "boom") := rfl

/-- C3 (amended): for every handler chain that does **not** take the
single-handler fast path, no exception escapes `App.handler`: the chain's
settled result is always an `ok` response; a downstream `ok` passes
through, a rejection is translated — an `HttpError` to a response with
its status and message as body, any other thrown value to a generic
500 `"Internal server error"`. On the fast path (exactly one group with
exactly one middleware) the middleware's promise is returned without
`await`, so its rejection escapes untranslated, as the counterexample
shows. -/
theorem appHandler_translates_errors
    (handlers : List (List MwFn)) (terminal : AsyncResult)
    (hfast : ¬(handlers.length = 1 ∧ (handlers.headD []).length = 1)) :
    (∃ r, appHandler handlers terminal = .ok r) ∧
    (∀ r, runMiddlewares handlers terminal = .ok r → appHandler handlers terminal = .ok r) ∧
    (∀ e, runMiddlewares handlers terminal = .error e →
      appHandler handlers terminal = .ok (errorToResponse e)) ∧
    (∀ s m, errorToResponse (.httpError s m) = ⟨s, m⟩) ∧
    (∀ t, errorToResponse (.other t) = ⟨500, "Internal server error"⟩) := by
  unfold appHandler
  rw [if_neg hfast]
  refine ⟨?_, ?_, ?_, fun _ _ => rfl, fun _ => rfl⟩
  · rcases h : runMiddlewares handlers terminal with e | r
    · exact ⟨errorToResponse e, by simp only [h]⟩
    · exact ⟨r, by simp only [h]⟩
  · intro r h
    simp only [h]
  · intro e h
    simp only [h]

/-- Witness for C3 (amended) at the empty chain (which is not the fast
path): the terminal 405 `HttpError` rejection is translated into a
response with status 405 and the error message as body. -/
theorem appHandler_translates_errors_witness :
    ¬(([] : List (List MwFn)).length = 1 ∧ (([] : List (List MwFn)).headD []).length = 1) ∧
    appHandler [] (.error (JSVal.httpError 405 "Method Not Allowed"))
      = .ok ⟨405, "Method Not Allowed"⟩ := by
  constructor
  · decide
  · exact (appHandler_translates_errors [] (.error (JSVal.httpError 405 "Method Not Allowed"))
      (by decide)).2.2.1 (JSVal.httpError 405 "Method Not Allowed") rfl

/-! ## Lemmas about the redirect normalization -/

theorem collapseSlashes_true_head_ne :
    ∀ (cs : List Char) (c : Char), (collapseSlashes true cs).head? = some c → c ≠ '/' := by
  intro cs
  induction cs with
  | nil => intro c h; cases h
  | cons x rest ih =>
    intro c h
    by_cases hx : x = '/'
    · rw [show collapseSlashes true (x :: rest) = collapseSlashes true rest by
        simp [collapseSlashes, hx]] at h
      exact ih c h
    · rw [show collapseSlashes true (x :: rest) = x :: collapseSlashes false rest by
        simp [collapseSlashes, hx]] at h
      injection h with h
      rw [← h]
      exact hx

theorem collapseSlashes_false_slash (xs : List Char) :
    collapseSlashes false ('/' :: xs) = '/' :: collapseSlashes true xs := by
  simp [collapseSlashes]

theorem collapseSlashes_true_slash (xs : List Char) :
    collapseSlashes true ('/' :: xs) = collapseSlashes true xs := by
  simp [collapseSlashes]

theorem indexOfChar_get? :
    ∀ (cs : List Char) (t : Char) (k : Nat), indexOfChar cs t = some k → cs.get? k = some t := by
  intro cs
  induction cs with
  | nil => intro t k h; cases h
  | cons x rest ih =>
    intro t k h
    unfold indexOfChar at h
    by_cases hx : x = t
    · rw [if_pos hx] at h
      injection h with h
      rw [← h, hx]
      rfl
    · rw [if_neg hx] at h
      rcases Option.map_eq_some'.mp h with ⟨k', hk', rfl⟩
      simpa using ih t k' hk'

theorem indexOfChar_slash_ge :
    ∀ (t : List Char) (ch : Char) (k : Nat), ch ≠ '/' →
      indexOfChar ('/' :: '/' :: t) ch = some k → 2 ≤ k := by
  intro t ch k hch h
  unfold indexOfChar at h
  rw [if_neg (fun hs => hch hs.symm)] at h
  rcases Option.map_eq_some'.mp h with ⟨k1, hk1, rfl⟩
  unfold indexOfChar at hk1
  rw [if_neg (fun hs => hch hs.symm)] at hk1
  rcases Option.map_eq_some'.mp hk1 with ⟨k2, _, rfl⟩
  omega

theorem head?_drop_eq_get? : ∀ (cs : List Char) (k : Nat), (cs.drop k).head? = cs.get? k := by
  intro cs
  induction cs with
  | nil => intro k; cases k <;> rfl
  | cons x rest ih =>
    intro k
    cases k with
    | zero => rfl
    | succ n => exact ih n

theorem redirectLocData_two_slashes (t : List Char) :
    ∃ u, redirectLocData ('/' :: '/' :: t) = '/' :: u ∧
      ∀ c, u.head? = some c → c ≠ '/' := by
  unfold redirectLocData
  have hsplit : ∀ (ch : Char) (k : Nat), ch ≠ '/' →
      indexOfChar ('/' :: '/' :: t) ch = some k →
      ∃ u, (collapseSlashes false (('/' :: '/' :: t).take k) ++ ('/' :: '/' :: t).drop k)
          = '/' :: u ∧ ∀ c, u.head? = some c → c ≠ '/' := by
    intro ch k hch hidx
    have hk2 : 2 ≤ k := indexOfChar_slash_ge t ch k hch hidx
    obtain ⟨k', rfl⟩ : ∃ k', k = k' + 2 := ⟨k - 2, by omega⟩
    have htake : ('/' :: '/' :: t).take (k' + 2) = '/' :: '/' :: t.take k' := rfl
    rw [htake, collapseSlashes_false_slash, collapseSlashes_true_slash]
    refine ⟨collapseSlashes true (t.take k') ++ ('/' :: '/' :: t).drop (k' + 2), rfl, ?_⟩
    intro c hc
    rcases hcol : collapseSlashes true (t.take k') with _ | ⟨y, ys⟩
    · rw [hcol] at hc
      simp only [List.nil_append] at hc
      rw [head?_drop_eq_get?] at hc
      have := indexOfChar_get? _ _ _ hidx
      rw [this] at hc
      injection hc with hc
      rw [← hc]
      exact hch
    · rw [hcol] at hc
      simp only [List.cons_append, List.head?_cons] at hc
      refine collapseSlashes_true_head_ne (t.take k') c ?_
      rw [hcol]
      simpa using hc
  rcases hq : indexOfChar ('/' :: '/' :: t) '?' with _ | k
  · rcases hh : indexOfChar ('/' :: '/' :: t) '#' with _ | k
    · rw [collapseSlashes_false_slash, collapseSlashes_true_slash]
      exact ⟨collapseSlashes true t, rfl, collapseSlashes_true_head_ne t⟩
    · exact hsplit '#' k (by decide) hh
  · exact hsplit '?' k (by decide) hq

theorem twoLeadingSlashes_iff (s : String) :
    twoLeadingSlashes s = true ↔ ∃ t, s.data = '/' :: '/' :: t := by
  unfold twoLeadingSlashes
  rcases hd : s.data with _ | ⟨c1, _ | ⟨c2, t⟩⟩
  · simp
  · simp
  · constructor
    · intro h
      split at h
      · rename_i heq
        injection heq with e1 e2
        injection e2 with e2 _
        exact ⟨t, by rw [e1, e2]⟩
      · cases h
    · rintro ⟨t', ht'⟩
      injection ht' with e1 e2
      injection e2 with e2 e3
      subst e1; subst e2
      rfl

/-- C8: for every protocol-relative redirect target (a string beginning
with two or more slashes), `ctx.redirect` with no status argument returns
status 302, and the `Location` header starts with a single `/` that is not
followed by another `/` — the leading slash run has been collapsed and the
result is no longer protocol-relative. -/
theorem redirect_protocol_relative_collapsed (s : String)
    (h : twoLeadingSlashes s = true) :
    (redirectResponse s none).status = 302 ∧
    (redirectResponse s none).location.data.head? = some '/' ∧
    twoLeadingSlashes (redirectResponse s none).location = false := by
  obtain ⟨t, ht⟩ := (twoLeadingSlashes_iff s).mp h
  have hne : s ≠ "/" := by
    intro hs
    rw [hs] at ht
    cases ht
  have hhead : s.data.head? = some '/' := by rw [ht]; rfl
  have hloc : redirectLocation s = ⟨redirectLocData s.data⟩ := by
    unfold redirectLocation
    rw [if_pos ⟨hne, hhead⟩]
  obtain ⟨u, hu, huh⟩ := redirectLocData_two_slashes t
  refine ⟨rfl, ?_, ?_⟩
  · show (redirectLocation s).data.head? = some '/'
    rw [hloc, ht]
    show (redirectLocData ('/' :: '/' :: t)).head? = some '/'
    rw [hu]
    rfl
  · show twoLeadingSlashes (redirectLocation s) = false
    rw [hloc, ht]
    show twoLeadingSlashes ⟨redirectLocData ('/' :: '/' :: t)⟩ = false
    rw [hu]
    unfold twoLeadingSlashes
    rcases hu2 : u with _ | ⟨y, ys⟩
    · rfl
    · have : y ≠ '/' := huh y (by rw [hu2]; rfl)
      simp only []
      split
      · rename_i heq
        injection heq with _ e2
        injection e2 with e2 _
        exact absurd e2 this
      · rfl

/-- Witness for C8 at the spec's concrete example `//evil.example/x`: the
hypothesis holds, the returned status is 302, the `Location` value starts
with a single slash and is no longer protocol-relative, and concretely it
equals `/evil.example/x`. -/
theorem redirect_protocol_relative_collapsed_witness :
    twoLeadingSlashes "//evil.example/x" = true ∧
    (redirectResponse "//evil.example/x" none).status = 302 ∧
    (redirectResponse "//evil.example/x" none).location.data.head? = some '/' ∧
    twoLeadingSlashes (redirectResponse "//evil.example/x" none).location = false ∧
    (redirectResponse "//evil.example/x" none).location = "/evil.example/x" := by
  have h := redirect_protocol_relative_collapsed "//evil.example/x" (by decide)
  exact ⟨by decide, h.1, h.2.1, h.2.2, by decide⟩

/-- C10: the anti-open-redirect normalization applies only to targets that
begin with `/` and are not exactly `/`; for every other target — an
absolute URL, a relative path, or the bare `/` — and for every status
argument, the returned `Location` header is the target string verbatim. -/
theorem redirect_verbatim_otherwise (s : String) (status : Option Nat)
    (h : s = "/" ∨ ¬s.data.head? = some '/') :
    (redirectResponse s status).location = s := by
  show redirectLocation s = s
  unfold redirectLocation
  rcases h with rfl | hh
  · rw [if_neg]
    rintro ⟨hne, _⟩
    exact hne rfl
  · rw [if_neg]
    rintro ⟨_, hhead⟩
    exact hh hhead

/-- Witness for C10 at the absolute URL `https://evil.example/x` (whose
first character is not `/`): the `Location` header is the target verbatim,
with no collapsing applied. -/
theorem redirect_verbatim_otherwise_witness :
    ("https://evil.example/x" = "/" ∨
      ¬("https://evil.example/x" : String).data.head? = some '/') ∧
    (redirectResponse "https://evil.example/x" none).location = "https://evil.example/x" := by
  constructor
  · right
    decide
  · exact redirect_verbatim_otherwise "https://evil.example/x" none (by right; decide)
